import Mathlib

/-!
Shallow embedding of the RAG pipeline of `backend/app/rag/` (chunker,
context assembler, embeddings, storage, LLM processor, query orchestrator),
with theorems checking the natural-language specification against it.

A Python `str` is embedded as a list of characters (`Str`), so that string
operations reduce in the kernel.
-/

set_option autoImplicit false

namespace RAG

/-- A Python string, embedded as its character sequence. -/
abbrev Str := List Char

/-- `str.strip()`: drop leading and trailing whitespace. -/
def pyStrip (s : Str) : Str :=
  ((s.dropWhile Char.isWhitespace).reverse.dropWhile Char.isWhitespace).reverse

/-! ## Chunker — `backend/app/rag/chunker.py`

The tokenizer (`tiktoken`) is an external dependency; it is abstracted as a
pair of functions `encode`/`decode`.  `create_chunks` is translated clause by
clause from `MessageChunker.create_chunks`; since its `while` loop has no
a-priori termination argument, the loop is embedded with explicit fuel:
`chunkLoop fuel s = none` means the loop is still running after `fuel`
iterations. -/

structure Tokenizer where
  encode : Str → List Nat
  decode : List Nat → Str

/-- `TextChunk` dataclass of `chunker.py`. -/
structure TextChunk where
  content : Str
  index : Nat
  metadata : List (String × String)
  token_count : Nat
  deriving Repr, DecidableEq

/-- Configuration of `MessageChunker.__init__` (the tokenizer stands for
`tiktoken.encoding_for_model(model_name)`). -/
structure MessageChunker where
  chunk_size : Nat
  chunk_overlap : Nat
  tokenizer : Tokenizer

/-- State of the `while start < len(tokens)` loop of `create_chunks`:
current `start`, next `chunk_index`, chunks appended so far. -/
structure ChunkLoopState where
  start : Nat
  chunk_index : Nat
  chunks : List TextChunk

/-- One iteration of the loop body of `create_chunks`:
`end = min(start + chunk_size, len(tokens))`, slice `tokens[start:end]`,
decode, append the chunk, then `start = end - chunk_overlap`. -/
def chunkStep (c : MessageChunker) (meta : List (String × String))
    (tokens : List Nat) (s : ChunkLoopState) : ChunkLoopState :=
  let e := min (s.start + c.chunk_size) tokens.length
  let chunk_tokens := (tokens.drop s.start).take (e - s.start)
  { start := e - c.chunk_overlap
    chunk_index := s.chunk_index + 1
    chunks := s.chunks ++
      [{ content := c.tokenizer.decode chunk_tokens
         index := s.chunk_index
         metadata := meta
         token_count := chunk_tokens.length }] }

/-- The `while start < len(tokens)` loop of `create_chunks`, with fuel.
`none` = the loop has not exited within `fuel` iterations. -/
def chunkLoop (c : MessageChunker) (meta : List (String × String))
    (tokens : List Nat) : Nat → ChunkLoopState → Option (List TextChunk)
  | 0, _ => none
  | fuel + 1, s =>
      if s.start < tokens.length then
        chunkLoop c meta tokens fuel (chunkStep c meta tokens s)
      else
        some s.chunks

/-- `MessageChunker.create_chunks(text, metadata)`: empty/whitespace-only text
returns `[]`; a text of at most `chunk_size` tokens returns one chunk of
index 0 covering the whole text; otherwise the sliding-window loop runs
(with fuel bounding the number of iterations). -/
def create_chunks (c : MessageChunker) (text : Str)
    (meta : List (String × String)) (fuel : Nat) : Option (List TextChunk) :=
  if pyStrip text = [] then
    some []
  else if (c.tokenizer.encode text).length ≤ c.chunk_size then
    some [{ content := text, index := 0, metadata := meta
            token_count := (c.tokenizer.encode text).length }]
  else
    chunkLoop c meta (c.tokenizer.encode text) fuel
      { start := 0, chunk_index := 0, chunks := [] }

/-- After one loop iteration `start` is again `< len(tokens)` whenever the
overlap is positive and the token list is non-empty: the new start is
`min(start + chunk_size, len) - chunk_overlap ≤ len - chunk_overlap < len`. -/
lemma chunkStep_start_lt (c : MessageChunker) (meta : List (String × String))
    (tokens : List Nat) (s : ChunkLoopState)
    (hov : 1 ≤ c.chunk_overlap) (hlen : 1 ≤ tokens.length) :
    (chunkStep c meta tokens s).start < tokens.length := by
  have h1 : min (s.start + c.chunk_size) tokens.length ≤ tokens.length :=
    min_le_right _ _
  have h2 : (chunkStep c meta tokens s).start =
      min (s.start + c.chunk_size) tokens.length - c.chunk_overlap := rfl
  omega

/-- If the guard `start < len(tokens)` holds and the overlap is positive, the
loop never exits: every fuel budget is exhausted. -/
lemma chunkLoop_none (c : MessageChunker) (meta : List (String × String))
    (tokens : List Nat) (hov : 1 ≤ c.chunk_overlap) :
    ∀ (fuel : Nat) (s : ChunkLoopState), s.start < tokens.length →
      chunkLoop c meta tokens fuel s = none := by
  intro fuel
  induction fuel with
  | zero => intro s _; rfl
  | succ n ih =>
      intro s hs
      have hlen : 1 ≤ tokens.length := by omega
      simp only [chunkLoop, if_pos hs]
      exact ih _ (chunkStep_start_lt c meta tokens s hov hlen)

/-- A concrete tokenizer for witnesses: one token per character. -/
def charTokenizer : Tokenizer where
  encode s := s.map Char.toNat
  decode ts := ts.map Char.ofNat

/-- Scenario-B chunker configuration: `chunk_size=5, chunk_overlap=2`. -/
def chunkerB : MessageChunker :=
  { chunk_size := 5, chunk_overlap := 2, tokenizer := charTokenizer }

/-- C1: `create_chunks` is claimed total for every configuration with
`0 ≤ chunk_overlap < chunk_size`.  The code refutes this: for every text whose
token count exceeds `chunk_size`, and every positive overlap, the sliding
window loop never terminates (once the window right edge reaches the end of
the token list, `start` is reset to `len - chunk_overlap < len` forever), so
no fuel budget suffices. -/
theorem create_chunks_diverges (c : MessageChunker) (text : Str)
    (meta : List (String × String))
    (hblank : ¬ pyStrip text = [])
    (hlong : c.chunk_size < (c.tokenizer.encode text).length)
    (hov : 1 ≤ c.chunk_overlap) :
    ∀ fuel, create_chunks c text meta fuel = none := by
  intro fuel
  have h0 : (⟨0, 0, []⟩ : ChunkLoopState).start < (c.tokenizer.encode text).length := by
    show 0 < _
    omega
  simp only [create_chunks, if_neg hblank, if_neg (not_le.mpr hlong)]
  exact chunkLoop_none c meta _ hov fuel _ h0

/-- Witness for C1 at `chunk_size=5, chunk_overlap=2` on a concrete 12-token
text: the loop is still running after 1000 iterations. -/
theorem create_chunks_diverges_witness :
    create_chunks chunkerB "abcdefghijkl".toList [] 1000 = none :=
  create_chunks_diverges chunkerB "abcdefghijkl".toList [] (by decide) (by decide)
    (by decide) 1000

/-- C2: the short-text half of the claim holds (a text of at most
`chunk_size` tokens yields exactly one chunk of index 0 covering the whole
text, for any fuel), but Scenario B fails on the code: with `chunk_size=5`,
`chunk_overlap=2`, the concrete 12-token text never yields the claimed 4
chunks — the loop never terminates at all. -/
theorem create_chunks_scenarios :
    (∀ (c : MessageChunker) (text : Str) (meta : List (String × String)) (fuel : Nat),
      ¬ pyStrip text = [] → (c.tokenizer.encode text).length ≤ c.chunk_size →
      create_chunks c text meta fuel =
        some [{ content := text, index := 0, metadata := meta
                token_count := (c.tokenizer.encode text).length }]) ∧
    (∀ fuel, create_chunks chunkerB "abcdefghijkl".toList [] fuel = none) := by
  constructor
  · intro c text meta fuel hblank hshort
    simp only [create_chunks, if_neg hblank, if_pos hshort]
  · intro fuel
    have h0 : (⟨0, 0, []⟩ : ChunkLoopState).start <
        (chunkerB.tokenizer.encode "abcdefghijkl".toList).length := by decide
    simp only [create_chunks, if_neg (by decide : ¬ pyStrip "abcdefghijkl".toList = []),
      if_neg (by decide :
        ¬ (chunkerB.tokenizer.encode "abcdefghijkl".toList).length ≤ chunkerB.chunk_size)]
    exact chunkLoop_none chunkerB [] _ (by decide) fuel _ h0

/-- Witness for C2: the short-text half at a concrete 3-token text, and the
Scenario-B half at fuel 7. -/
theorem create_chunks_scenarios_witness :
    create_chunks chunkerB "abc".toList [] 0 =
      some [{ content := "abc".toList, index := 0, metadata := []
              token_count := (chunkerB.tokenizer.encode "abc".toList).length }] ∧
    create_chunks chunkerB "abcdefghijkl".toList [] 7 = none :=
  ⟨create_chunks_scenarios.1 chunkerB "abc".toList [] 0 (by decide) (by decide),
   create_chunks_scenarios.2 7⟩

/-! ## Context assembler — `backend/app/rag/context.py`

The tokenizer (`tiktoken`) is abstracted as a counting function
`count_tokens` (for `len(self.encoding.encode(text))`), and the external
rendering helpers (`datetime` formatting, `"{:.2f}"` float formatting) as
abstract `fmtTime` / `fmtSim` functions; everything else is translated
clause by clause from `ContextAssembler`. -/

/-- A retrieved-chunk dictionary as consumed by `assemble_context`; the
`Option` fields model the `chunk.get(key, default)` accesses. -/
structure ChunkDict where
  content : Option Str
  similarity : Option ℚ
  author : Option Str
  channel_name : Option Str
  timestamp : Option Str
  deriving Repr, DecidableEq

/-- `float(x.get("similarity", 0))`, the sort key of `assemble_context`. -/
def simKey (c : ChunkDict) : ℚ := c.similarity.getD 0

/-- Configuration and external dependencies of `ContextAssembler`. -/
structure ContextAssembler where
  max_tokens : Nat
  token_buffer : Nat
  count_tokens : Str → Nat
  fmtTime : Option Str → Str
  fmtSim : ℚ → Str

/-- `ContextAssembler._format_chunk_metadata`: the f-string
`"Author: ...\nChannel: ...\nTime: ...\nSimilarity: ...\n"` with the
timestamp and two-decimal similarity rendering abstracted. -/
def format_chunk_metadata (a : ContextAssembler) (c : ChunkDict) : Str :=
  "Author: ".toList ++ c.author.getD "Unknown".toList ++
  "\nChannel: ".toList ++ c.channel_name.getD "Unknown".toList ++
  "\nTime: ".toList ++ a.fmtTime c.timestamp ++
  "\nSimilarity: ".toList ++ a.fmtSim (simKey c) ++ ['\n']

/-- The formatted text of one chunk inside the `assemble_context` loop:
`chunk.get("content", "")`, wrapped as
`f"{metadata}\nContent:\n{chunk_text}\n---\n"` when metadata is included. -/
def chunk_text (a : ContextAssembler) (include_metadata : Bool)
    (c : ChunkDict) : Str :=
  if include_metadata then
    format_chunk_metadata a c ++ "\nContent:\n".toList ++
      c.content.getD [] ++ "\n---\n".toList
  else
    c.content.getD []

/-- Stable descending insertion: the new element is placed before the first
element whose key is strictly smaller, hence after all earlier elements with
an equal key. -/
def insertDesc (x : ChunkDict) : List ChunkDict → List ChunkDict
  | [] => [x]
  | y :: ys => if simKey y < simKey x then x :: y :: ys else y :: insertDesc x ys

/-- `sorted(chunks, key=lambda x: float(x.get("similarity", 0)),
reverse=True)`: a stable sort by similarity descending, embedded as a
left-to-right insertion sort (stable by construction; sortedness,
stability and permutation are proved below, so any stable descending sort —
in particular CPython's timsort — agrees with it). -/
def sortDesc (l : List ChunkDict) : List ChunkDict :=
  l.foldl (fun acc x => insertDesc x acc) []

/-- `"\n".join(formatted_chunks)`. -/
def joinNl : List Str → Str
  | [] => []
  | [x] => x
  | x :: y :: rest => x ++ '\n' :: joinNl (y :: rest)

/-- The `for chunk in sorted_chunks` accumulation loop of
`assemble_context`: returns the accepted formatted chunks, the final
`total_tokens` and the final `chunks_used`.  The budget comparison is over
`ℤ`, matching Python integer arithmetic even when
`token_buffer > max_tokens`. -/
def assembleLoop (a : ContextAssembler) (im : Bool) :
    List ChunkDict → Nat → Nat → List Str × Nat × Nat
  | [], total, used => ([], total, used)
  | c :: rest, total, used =>
      if ((total : ℤ) + a.count_tokens (chunk_text a im c) >
          (a.max_tokens : ℤ) - a.token_buffer) then
        ([], total, used)
      else
        (chunk_text a im c ::
            (assembleLoop a im rest (total + a.count_tokens (chunk_text a im c))
              (used + 1)).1,
          (assembleLoop a im rest (total + a.count_tokens (chunk_text a im c))
            (used + 1)).2)

/-- The dictionary returned by `assemble_context`. -/
structure AssembledContext where
  formatted_context : Str
  token_count : Nat
  chunks_used : Nat
  total_chunks : Nat
  deriving Repr, DecidableEq

/-- `ContextAssembler.assemble_context(query, chunks, include_metadata)`. -/
def assemble_context (a : ContextAssembler) (_query : Str)
    (chunks : List ChunkDict) (include_metadata : Bool) : AssembledContext :=
  let r := assembleLoop a include_metadata (sortDesc chunks) 0 0
  { formatted_context := joinNl r.1
    token_count := r.2.1
    chunks_used := r.2.2
    total_chunks := chunks.length }

/-- Sorted by similarity descending. -/
def SortedDesc (l : List ChunkDict) : Prop :=
  List.Pairwise (fun x y => simKey y ≤ simKey x) l

/-- Stability of the similarity sort: for every key value, the elements
carrying that key appear in the sorted list exactly in input order. -/
def simFilterStable (l s : List ChunkDict) : Prop :=
  ∀ q : ℚ, s.filter (fun c => decide (simKey c = q)) =
    l.filter (fun c => decide (simKey c = q))

/-- Greedy stop: if not all chunks were accepted, the first unaccepted chunk
of the sorted order is exactly one whose addition would exceed the budget. -/
def stopsAtFirstOverflow (a : ContextAssembler) (im : Bool)
    (r : AssembledContext) (s : List ChunkDict) : Prop :=
  ∀ c' t', s.drop r.chunks_used = c' :: t' →
    (r.token_count : ℤ) + a.count_tokens (chunk_text a im c') >
      (a.max_tokens : ℤ) - a.token_buffer

lemma sortedDesc_cons {y : ChunkDict} {ys : List ChunkDict} :
    SortedDesc (y :: ys) ↔ (∀ z ∈ ys, simKey z ≤ simKey y) ∧ SortedDesc ys :=
  List.pairwise_cons

lemma insertDesc_perm (x : ChunkDict) :
    ∀ acc : List ChunkDict, List.Perm (insertDesc x acc) (x :: acc) := by
  intro acc
  induction acc with
  | nil => rfl
  | cons y ys ih =>
      by_cases h : simKey y < simKey x
      · simp [insertDesc, if_pos h]
      · simp only [insertDesc, if_neg h]
        exact (ih.cons y).trans (List.Perm.swap x y ys)

lemma insertDesc_sorted (x : ChunkDict) :
    ∀ acc : List ChunkDict, SortedDesc acc → SortedDesc (insertDesc x acc) := by
  intro acc
  induction acc with
  | nil => intro _; simp [insertDesc, SortedDesc]
  | cons y ys ih =>
      intro hs
      rw [sortedDesc_cons] at hs
      obtain ⟨hy, hys⟩ := hs
      by_cases h : simKey y < simKey x
      · rw [insertDesc, if_pos h, sortedDesc_cons]
        constructor
        · intro z hz
          rcases List.mem_cons.mp hz with hz | hz
          · exact le_of_lt (hz ▸ h)
          · exact le_of_lt (lt_of_le_of_lt (hy z hz) h)
        · rw [sortedDesc_cons]; exact ⟨hy, hys⟩
      · rw [insertDesc, if_neg h, sortedDesc_cons]
        constructor
        · intro z hz
          have hz' : z ∈ x :: ys := (insertDesc_perm x ys).mem_iff.mp hz
          rcases List.mem_cons.mp hz' with hz' | hz'
          · exact hz' ▸ le_of_not_lt h
          · exact hy z hz'
        · exact ih hys

lemma filter_eq_nil_of_lt (q : ℚ) (y : ChunkDict) (ys : List ChunkDict)
    (hs : SortedDesc (y :: ys)) (hy : simKey y < q) :
    (y :: ys).filter (fun c => decide (simKey c = q)) = [] := by
  rw [List.filter_eq_nil_iff]
  intro z hz
  rw [sortedDesc_cons] at hs
  have : simKey z ≤ simKey y := by
    rcases List.mem_cons.mp hz with h | h
    · exact h ▸ le_refl _
    · exact hs.1 z h
  simp only [decide_eq_true_eq]
  intro hzq
  exact absurd (hzq ▸ this) (not_le.mpr hy)

lemma insertDesc_filter_eq (x : ChunkDict) (q : ℚ) (hq : simKey x = q) :
    ∀ acc : List ChunkDict, SortedDesc acc →
      (insertDesc x acc).filter (fun c => decide (simKey c = q)) =
        acc.filter (fun c => decide (simKey c = q)) ++ [x] := by
  intro acc
  induction acc with
  | nil => intro _; simp [insertDesc, hq]
  | cons y ys ih =>
      intro hs
      have hys : SortedDesc ys := by
        rw [sortedDesc_cons] at hs; exact hs.2
      by_cases h : simKey y < simKey x
      · rw [insertDesc, if_pos h]
        rw [List.filter_cons_of_pos (by simp [hq])]
        rw [filter_eq_nil_of_lt q y ys hs (hq ▸ h)]
        rfl
      · rw [insertDesc, if_neg h]
        by_cases hyq : simKey y = q
        · rw [List.filter_cons_of_pos (by simp [hyq]),
            List.filter_cons_of_pos (by simp [hyq]), ih hys]
          rfl
        · rw [List.filter_cons_of_neg (by simp [hyq]),
            List.filter_cons_of_neg (by simp [hyq]), ih hys]

lemma insertDesc_filter_ne (x : ChunkDict) (q : ℚ) (hq : ¬ simKey x = q) :
    ∀ acc : List ChunkDict,
      (insertDesc x acc).filter (fun c => decide (simKey c = q)) =
        acc.filter (fun c => decide (simKey c = q)) := by
  intro acc
  induction acc with
  | nil => simp [insertDesc, hq]
  | cons y ys ih =>
      by_cases h : simKey y < simKey x
      · rw [insertDesc, if_pos h, List.filter_cons_of_neg (by simp [hq])]
      · rw [insertDesc, if_neg h]
        by_cases hyq : simKey y = q
        · rw [List.filter_cons_of_pos (by simp [hyq]),
            List.filter_cons_of_pos (by simp [hyq]), ih]
        · rw [List.filter_cons_of_neg (by simp [hyq]),
            List.filter_cons_of_neg (by simp [hyq]), ih]

lemma sortLoop_props :
    ∀ (l acc : List ChunkDict), SortedDesc acc →
      SortedDesc (l.foldl (fun acc x => insertDesc x acc) acc) ∧
      (∀ q : ℚ, (l.foldl (fun acc x => insertDesc x acc) acc).filter
          (fun c => decide (simKey c = q)) =
        acc.filter (fun c => decide (simKey c = q)) ++
          l.filter (fun c => decide (simKey c = q))) ∧
      List.Perm (l.foldl (fun acc x => insertDesc x acc) acc) (acc ++ l) := by
  intro l
  induction l with
  | nil => intro acc hs; exact ⟨hs, fun q => by simp, by simp⟩
  | cons x rest ih =>
      intro acc hs
      obtain ⟨h1, h2, h3⟩ := ih (insertDesc x acc) (insertDesc_sorted x acc hs)
      refine ⟨h1, ?_, ?_⟩
      · intro q
        rw [List.foldl_cons, h2 q]
        by_cases hq : simKey x = q
        · rw [insertDesc_filter_eq x q hq acc hs,
            List.filter_cons_of_pos (by simp [hq])]
          simp
        · rw [insertDesc_filter_ne x q hq acc,
            List.filter_cons_of_neg (by simp [hq])]
      · rw [List.foldl_cons]
        refine h3.trans ?_
        refine (((insertDesc_perm x acc).append_right rest).trans ?_)
        exact List.perm_middle.symm

lemma sortDesc_sorted (l : List ChunkDict) : SortedDesc (sortDesc l) :=
  (sortLoop_props l [] (by simp [SortedDesc])).1

lemma sortDesc_stable (l : List ChunkDict) : simFilterStable l (sortDesc l) := by
  intro q
  have := (sortLoop_props l [] (by simp [SortedDesc])).2.1 q
  simpa [sortDesc] using this

lemma sortDesc_perm (l : List ChunkDict) : List.Perm (sortDesc l) l := by
  have := (sortLoop_props l [] (by simp [SortedDesc])).2.2
  simpa [sortDesc] using this

/-- Accumulator arithmetic of the `assemble_context` loop: the final
`total_tokens` is the initial total plus the token counts of the accepted
formatted chunks, and `chunks_used` grows by exactly the number of accepted
chunks. -/
lemma assembleLoop_acc (a : ContextAssembler) (im : Bool) :
    ∀ (l : List ChunkDict) (total used : Nat),
      (assembleLoop a im l total used).2.1 =
        total + ((assembleLoop a im l total used).1.map a.count_tokens).sum ∧
      (assembleLoop a im l total used).2.2 =
        used + (assembleLoop a im l total used).1.length := by
  intro l
  induction l with
  | nil => intro total used; simp [assembleLoop]
  | cons c rest ih =>
      intro total used
      by_cases hb : ((total : ℤ) + a.count_tokens (chunk_text a im c) >
          (a.max_tokens : ℤ) - a.token_buffer)
      · simp [assembleLoop, if_pos hb]
      · obtain ⟨e1, e2⟩ := ih (total + a.count_tokens (chunk_text a im c)) (used + 1)
        simp only [assembleLoop, if_neg hb, List.map_cons, List.sum_cons,
          List.length_cons]
        omega

/-- Budget invariant and greedy-stop property of the `assemble_context`
loop: if the running total is within budget it stays within budget, the
number of accepted chunks is at most the number of remaining chunks, and
when the loop broke early, the first unaccepted chunk is one whose addition
would exceed the budget. -/
lemma assembleLoop_bound (a : ContextAssembler) (im : Bool) :
    ∀ (l : List ChunkDict) (total used : Nat),
      (total : ℤ) ≤ (a.max_tokens : ℤ) - a.token_buffer →
      ((assembleLoop a im l total used).2.1 : ℤ) ≤
          (a.max_tokens : ℤ) - a.token_buffer ∧
      used ≤ (assembleLoop a im l total used).2.2 ∧
      (assembleLoop a im l total used).2.2 - used ≤ l.length ∧
      (∀ c' t', l.drop ((assembleLoop a im l total used).2.2 - used) = c' :: t' →
        ((assembleLoop a im l total used).2.1 : ℤ) +
          a.count_tokens (chunk_text a im c') >
            (a.max_tokens : ℤ) - a.token_buffer) := by
  intro l
  induction l with
  | nil =>
      intro total used htot
      refine ⟨htot, le_refl _, by simp [assembleLoop], ?_⟩
      intro c' t' hd
      simp [assembleLoop] at hd
  | cons c rest ih =>
      intro total used htot
      by_cases hb : ((total : ℤ) + a.count_tokens (chunk_text a im c) >
          (a.max_tokens : ℤ) - a.token_buffer)
      · simp only [assembleLoop, if_pos hb]
        refine ⟨htot, le_refl _, by simp, ?_⟩
        intro c' t' hd
        rw [Nat.sub_self, List.drop_zero] at hd
        obtain ⟨rfl, -⟩ : c = c' ∧ rest = t' := by
          exact ⟨(List.cons.injEq _ _ _ _ ▸ hd).1, (List.cons.injEq _ _ _ _ ▸ hd).2⟩
        exact hb
      · have hle : ((total + a.count_tokens (chunk_text a im c) : Nat) : ℤ) ≤
            (a.max_tokens : ℤ) - a.token_buffer := by push_cast; omega
        obtain ⟨b1, b2, b3, b4⟩ :=
          ih (total + a.count_tokens (chunk_text a im c)) (used + 1) hle
        simp only [assembleLoop, if_neg hb]
        refine ⟨b1, by omega, by simp only [List.length_cons]; omega, ?_⟩
        intro c' t' hd
        have hk : (assembleLoop a im rest
            (total + a.count_tokens (chunk_text a im c)) (used + 1)).2.2 - used =
            ((assembleLoop a im rest
              (total + a.count_tokens (chunk_text a im c)) (used + 1)).2.2 -
                (used + 1)) + 1 := by omega
        rw [hk, List.drop_succ_cons] at hd
        exact b4 c' t' hd

/-- A concrete assembler for witnesses: character-counting tokenizer,
budget `20 - 5`. -/
def asmW : ContextAssembler :=
  { max_tokens := 20, token_buffer := 5, count_tokens := List.length,
    fmtTime := fun _ => [], fmtSim := fun _ => [] }

/-- Two concrete retrieved chunks for witnesses. -/
def chunksW : List ChunkDict :=
  [ { content := some "aaa".toList, similarity := some 1, author := none,
      channel_name := none, timestamp := none },
    { content := some "bb".toList, similarity := some 2, author := none,
      channel_name := none, timestamp := none } ]

/-- C5: with `token_buffer < max_tokens`, the output of `assemble_context`
satisfies `token_count ≤ max_tokens - token_buffer` and
`chunks_used ≤ total_chunks = len(chunks)`; the chunks are considered in
stable similarity-descending order (the sort is sorted, stable on equal
keys, and a permutation of the input), and the loop stops exactly at the
first chunk whose addition would exceed the budget. -/
theorem assemble_context_invariants (a : ContextAssembler) (query : Str)
    (chunks : List ChunkDict) (im : Bool)
    (hbuf : a.token_buffer < a.max_tokens) :
    ((assemble_context a query chunks im).token_count : ℤ) ≤
        (a.max_tokens : ℤ) - a.token_buffer ∧
    (assemble_context a query chunks im).chunks_used ≤
        (assemble_context a query chunks im).total_chunks ∧
    (assemble_context a query chunks im).total_chunks = chunks.length ∧
    SortedDesc (sortDesc chunks) ∧
    simFilterStable chunks (sortDesc chunks) ∧
    List.Perm (sortDesc chunks) chunks ∧
    stopsAtFirstOverflow a im (assemble_context a query chunks im)
      (sortDesc chunks) := by
  have h0 : ((0 : Nat) : ℤ) ≤ (a.max_tokens : ℤ) - a.token_buffer := by
    push_cast; omega
  obtain ⟨b1, b2, b3, b4⟩ := assembleLoop_bound a im (sortDesc chunks) 0 0 h0
  have hlen : (sortDesc chunks).length = chunks.length :=
    (sortDesc_perm chunks).length_eq
  refine ⟨b1, ?_, rfl, sortDesc_sorted chunks, sortDesc_stable chunks,
    sortDesc_perm chunks, ?_⟩
  · show (assembleLoop a im (sortDesc chunks) 0 0).2.2 ≤ chunks.length
    omega
  · intro c' t' hd
    exact b4 c' t' hd

/-- Witness for C5 at a concrete assembler (budget 20−5) and two concrete
chunks. -/
theorem assemble_context_invariants_witness :
    ((assemble_context asmW [] chunksW false).token_count : ℤ) ≤
        (asmW.max_tokens : ℤ) - asmW.token_buffer ∧
    (assemble_context asmW [] chunksW false).chunks_used ≤
        (assemble_context asmW [] chunksW false).total_chunks ∧
    (assemble_context asmW [] chunksW false).total_chunks = chunksW.length ∧
    SortedDesc (sortDesc chunksW) ∧
    simFilterStable chunksW (sortDesc chunksW) ∧
    List.Perm (sortDesc chunksW) chunksW ∧
    stopsAtFirstOverflow asmW false (assemble_context asmW [] chunksW false)
      (sortDesc chunksW) :=
  assemble_context_invariants asmW [] chunksW false (by decide)

/-- `"\n".join`: under a separator-additive tokenizer, joining `n ≥ 1`
pieces costs the sum of the pieces plus `n - 1` separator tokens. -/
lemma joinNl_count (a : ContextAssembler)
    (hadd : ∀ x y : Str,
      a.count_tokens (x ++ '\n' :: y) = a.count_tokens x + 1 + a.count_tokens y) :
    ∀ fs : List Str, fs ≠ [] →
      a.count_tokens (joinNl fs) = (fs.map a.count_tokens).sum + (fs.length - 1) := by
  intro fs
  induction fs with
  | nil => intro h; exact absurd rfl h
  | cons x rest ih =>
      intro _
      cases rest with
      | nil => simp [joinNl]
      | cons y t =>
          have hrec := ih (by simp)
          rw [show joinNl (x :: y :: t) = x ++ '\n' :: joinNl (y :: t) from rfl,
            hadd, hrec]
          simp only [List.map_cons, List.sum_cons, List.length_cons]
          omega

/-- C10: the `token_count` reported by `assemble_context` counts only the
individually formatted accepted chunks; the `"\n"` separators of
`formatted_context` are uncounted.  Under a separator-additive tokenizer,
whenever at least two chunks are accepted, tokenizing `formatted_context`
gives exactly `chunks_used - 1` more tokens than `token_count`, hence
strictly more. -/
theorem assemble_context_separator_uncounted (a : ContextAssembler)
    (query : Str) (chunks : List ChunkDict) (im : Bool)
    (hadd : ∀ x y : Str,
      a.count_tokens (x ++ '\n' :: y) = a.count_tokens x + 1 + a.count_tokens y)
    (h2 : 2 ≤ (assemble_context a query chunks im).chunks_used) :
    a.count_tokens (assemble_context a query chunks im).formatted_context =
      (assemble_context a query chunks im).token_count +
        ((assemble_context a query chunks im).chunks_used - 1) ∧
    (assemble_context a query chunks im).token_count <
      a.count_tokens (assemble_context a query chunks im).formatted_context := by
  obtain ⟨e1, e2⟩ := assembleLoop_acc a im (sortDesc chunks) 0 0
  have h2' : 2 ≤ (assembleLoop a im (sortDesc chunks) 0 0).2.2 := h2
  have hne : (assembleLoop a im (sortDesc chunks) 0 0).1 ≠ [] := by
    intro h
    rw [h] at e2
    simp at e2
    omega
  have hj := joinNl_count a hadd (assembleLoop a im (sortDesc chunks) 0 0).1 hne
  constructor
  · show a.count_tokens (joinNl (assembleLoop a im (sortDesc chunks) 0 0).1) =
      (assembleLoop a im (sortDesc chunks) 0 0).2.1 +
        ((assembleLoop a im (sortDesc chunks) 0 0).2.2 - 1)
    omega
  · show (assembleLoop a im (sortDesc chunks) 0 0).2.1 <
      a.count_tokens (joinNl (assembleLoop a im (sortDesc chunks) 0 0).1)
    omega

/-- Witness for C10: with a character-counting tokenizer (which is
separator-additive) both concrete chunks are accepted, and the joined
context costs one more token than reported. -/
theorem assemble_context_separator_uncounted_witness :
    asmW.count_tokens (assemble_context asmW [] chunksW false).formatted_context =
      (assemble_context asmW [] chunksW false).token_count +
        ((assemble_context asmW [] chunksW false).chunks_used - 1) ∧
    (assemble_context asmW [] chunksW false).token_count <
      asmW.count_tokens (assemble_context asmW [] chunksW false).formatted_context :=
  assemble_context_separator_uncounted asmW [] chunksW false
    (by intro x y; simp only [asmW, List.length_append, List.length_cons]; omega)
    (by decide)

/-! ## Embeddings — `backend/app/rag/embeddings.py`

`compute_similarity` is
`np.dot(v1, v2) / (np.linalg.norm(v1) * np.linalg.norm(v2))`, with no
`try`/`raise` of any kind (in particular no `InvalidVectorError`, a name
that occurs nowhere in the repository).  Vectors are embedded over `ℚ`; an
IEEE division result is represented symbolically: `NpFloat.val n d` stands
for the real number `n / √d` (with `d ≠ 0`), and a zero denominator yields
`nan` / `±inf` exactly as numpy float division does (numpy emits a
`RuntimeWarning` but raises no exception). -/

/-- `np.dot` of two equal-length vectors (zip truncates, as numpy
broadcasting would reject unequal lengths anyway). -/
def dotProduct (v1 v2 : List ℚ) : ℚ := (List.zipWith (· * ·) v1 v2).sum

/-- Squared Euclidean norm; `np.linalg.norm v = √(normSq v)`. -/
def normSq (v : List ℚ) : ℚ := (v.map (fun x => x * x)).sum

/-- The result of a numpy float division, represented exactly:
`val n d` denotes `n / √d`. -/
inductive NpFloat where
  | val (num : ℚ) (denomSq : ℚ)
  | nan
  | posInf
  | negInf
  deriving Repr, DecidableEq

/-- `EmbeddingGenerator.compute_similarity(embedding1, embedding2)`:
the denominator `‖v1‖·‖v2‖ = √(normSq v1 · normSq v2)` is zero iff
`normSq v1 * normSq v2 = 0`; IEEE division then gives `nan` for `0/0` and
`±inf` otherwise, and no exception is ever raised. -/
def compute_similarity (v1 v2 : List ℚ) : NpFloat :=
  if normSq v1 * normSq v2 = 0 then
    if dotProduct v1 v2 = 0 then NpFloat.nan
    else if dotProduct v1 v2 > 0 then NpFloat.posInf
    else NpFloat.negInf
  else
    NpFloat.val (dotProduct v1 v2) (normSq v1 * normSq v2)

/-- The real number denoted by a finite numpy float result. -/
noncomputable def NpFloat.interp : NpFloat → Option ℝ
  | NpFloat.val n d => some ((n : ℝ) / Real.sqrt (d : ℝ))
  | _ => none

/-- The zero vector. -/
def isZeroVec (v : List ℚ) : Prop := ∀ x ∈ v, x = 0

instance (v : List ℚ) : Decidable (isZeroVec v) := by
  unfold isZeroVec; infer_instance

lemma normSq_nonneg (v : List ℚ) : 0 ≤ normSq v := by
  unfold normSq
  induction v with
  | nil => simp
  | cons x xs ih =>
      simp only [List.map_cons, List.sum_cons]
      nlinarith [mul_self_nonneg x]

lemma normSq_eq_zero_iff (v : List ℚ) : normSq v = 0 ↔ isZeroVec v := by
  unfold normSq isZeroVec
  induction v with
  | nil => simp
  | cons x xs ih =>
      simp only [List.map_cons, List.sum_cons, List.mem_cons]
      constructor
      · intro h
        have hx : 0 ≤ x * x := mul_self_nonneg x
        have hxs : 0 ≤ (xs.map (fun x => x * x)).sum := normSq_nonneg xs
        have hx0 : x * x = 0 := by linarith
        have hs0 : (xs.map (fun x => x * x)).sum = 0 := by linarith
        intro z hz
        rcases hz with hz | hz
        · exact hz ▸ (mul_self_eq_zero.mp hx0)
        · exact ih.mp hs0 z hz
      · intro h
        have hx0 : x = 0 := h x (Or.inl rfl)
        have hs0 : (xs.map (fun x => x * x)).sum = 0 :=
          ih.mpr (fun z hz => h z (Or.inr hz))
        rw [hx0, hs0]
        ring

lemma dotProduct_zero_left (v1 v2 : List ℚ) (h : isZeroVec v1) :
    dotProduct v1 v2 = 0 := by
  unfold dotProduct
  induction v1 generalizing v2 with
  | nil => simp
  | cons x xs ih =>
      cases v2 with
      | nil => simp
      | cons y ys =>
          simp only [List.zipWith_cons_cons, List.sum_cons]
          rw [h x (List.mem_cons_self x xs), ih ys (fun z hz => h z (List.mem_cons_of_mem x hz))]
          ring

lemma dotProduct_zero_right (v1 v2 : List ℚ) (h : isZeroVec v2) :
    dotProduct v1 v2 = 0 := by
  unfold dotProduct
  induction v1 generalizing v2 with
  | nil => simp
  | cons x xs ih =>
      cases v2 with
      | nil => simp
      | cons y ys =>
          simp only [List.zipWith_cons_cons, List.sum_cons]
          rw [h y (List.mem_cons_self y ys), ih ys (fun z hz => h z (List.mem_cons_of_mem y hz))]
          ring

/-- Counterexample to C9: on a zero first argument, `compute_similarity`
does not fail — it returns the numpy `nan` produced by the `0/0` division,
an ordinary return value. -/
theorem compute_similarity_zero_no_error :
    compute_similarity [(0 : ℚ), 0] [1, 2] = NpFloat.nan := by
  have h1 : normSq [(0 : ℚ), 0] * normSq [1, 2] = 0 := by
    simp [normSq]
  have h2 : dotProduct [(0 : ℚ), 0] [1, 2] = 0 := by
    simp [dotProduct]
  simp [compute_similarity, h1, h2]

/-- C9 (amended): `compute_similarity` never raises; for two equal-length
vectors it returns the cosine similarity
`dot(v1,v2) / (‖v1‖·‖v2‖)` represented exactly whenever both vectors are
non-zero, and the `nan` of numpy float division by zero (not an
`InvalidVectorError`) whenever either vector is the zero vector. -/
theorem compute_similarity_spec (v1 v2 : List ℚ) (_hlen : v1.length = v2.length) :
    (¬ isZeroVec v1 → ¬ isZeroVec v2 →
      compute_similarity v1 v2 =
        NpFloat.val (dotProduct v1 v2) (normSq v1 * normSq v2) ∧
      (compute_similarity v1 v2).interp =
        some ((dotProduct v1 v2 : ℝ) /
          (Real.sqrt (normSq v1 : ℝ) * Real.sqrt (normSq v2 : ℝ)))) ∧
    (isZeroVec v1 ∨ isZeroVec v2 → compute_similarity v1 v2 = NpFloat.nan) := by
  constructor
  · intro h1 h2
    have hn1 : normSq v1 ≠ 0 := fun h => h1 ((normSq_eq_zero_iff v1).mp h)
    have hn2 : normSq v2 ≠ 0 := fun h => h2 ((normSq_eq_zero_iff v2).mp h)
    have hd : ¬ normSq v1 * normSq v2 = 0 := by
      simp [mul_eq_zero, hn1, hn2]
    constructor
    · simp [compute_similarity, hd]
    · simp only [compute_similarity, if_neg hd, NpFloat.interp]
      congr 1
      rw [Rat.cast_mul, Real.sqrt_mul (by exact_mod_cast normSq_nonneg v1)]
  · intro h
    have hdot : dotProduct v1 v2 = 0 := by
      rcases h with h | h
      · exact dotProduct_zero_left v1 v2 h
      · exact dotProduct_zero_right v1 v2 h
    have hd : normSq v1 * normSq v2 = 0 := by
      rcases h with h | h
      · rw [(normSq_eq_zero_iff v1).mpr h, zero_mul]
      · rw [(normSq_eq_zero_iff v2).mpr h, mul_zero]
    simp [compute_similarity, hd, hdot]

/-- Witness for C9 (amended) at `v1 = [3, 4]`, `v2 = [4, 3]`. -/
theorem compute_similarity_spec_witness :
    (¬ isZeroVec [(3 : ℚ), 4] → ¬ isZeroVec [(4 : ℚ), 3] →
      compute_similarity [(3 : ℚ), 4] [4, 3] =
        NpFloat.val (dotProduct [(3 : ℚ), 4] [4, 3])
          (normSq [(3 : ℚ), 4] * normSq [(4 : ℚ), 3]) ∧
      (compute_similarity [(3 : ℚ), 4] [4, 3]).interp =
        some ((dotProduct [(3 : ℚ), 4] [4, 3] : ℝ) /
          (Real.sqrt (normSq [(3 : ℚ), 4] : ℝ) * Real.sqrt (normSq [(4 : ℚ), 3] : ℝ)))) ∧
    (isZeroVec [(3 : ℚ), 4] ∨ isZeroVec [(4 : ℚ), 3] →
      compute_similarity [(3 : ℚ), 4] [4, 3] = NpFloat.nan) :=
  compute_similarity_spec [(3 : ℚ), 4] [4, 3] (by decide)

/-! ## Vector store — `backend/app/rag/storage.py`

`RAGStorage.store_chunks` iterates over the chunk dictionaries; for each it
executes an `INSERT INTO message_chunks ... RETURNING id`, an
`INSERT INTO message_embeddings`, and a `commit`, all inside one
`try`/`except` whose handler rolls back and re-raises.  The database session
is embedded explicitly: `execute` appends to the pending (uncommitted) rows,
`commit` moves pending rows to committed, `rollback` discards pending rows.
A failure oracle `fail : Nat → Bool` decides which operation (numbered
globally) raises, standing for any database error.  Notably the source
performs NO validation of `message_id`/`dm_message_id`: both values are
passed through into every inserted row unchanged. -/

/-- Python exceptions relevant to the pipeline.  `invalidReference` is the
spec's `InvalidReferenceError`, included so that the claim about it is
statable; the code never produces it. -/
inductive PyErr where
  | dbError (msg : String)
  | providerError (msg : String)
  | typeError (msg : String)
  | attributeError (msg : String)
  | invalidReference
  deriving Repr, DecidableEq

/-- One chunk dictionary as consumed by `store_chunks` (produced by
`generate_embeddings`). -/
structure StoredInput where
  chunk_index : Nat
  chunk_content : Str
  metadata : List (String × String)
  embedding : List ℚ
  deriving Repr, DecidableEq

/-- A row of `message_chunks`. -/
structure ChunkRow where
  id : Nat
  message_id : Option Nat
  dm_message_id : Option Nat
  chunk_index : Nat
  chunk_content : Str
  metadata : List (String × String)
  deriving Repr, DecidableEq

/-- A row of `message_embeddings`. -/
structure EmbRow where
  chunk_id : Nat
  embedding : List ℚ
  deriving Repr, DecidableEq

/-- Database state: committed and pending (in-transaction) rows, and the
next `RETURNING id` value. -/
structure DBState where
  committedChunks : List ChunkRow
  committedEmbs : List EmbRow
  pendingChunks : List ChunkRow
  pendingEmbs : List EmbRow
  nextId : Nat
  deriving Repr, DecidableEq

/-- A SQLAlchemy session: database state plus the global operation
counter consulted by the failure oracle. -/
structure Session where
  st : DBState
  opIdx : Nat
  deriving Repr, DecidableEq

/-- `session.rollback()`: discard pending rows. -/
def Session.rollback (s : Session) : Session :=
  { s with st := { s.st with pendingChunks := [], pendingEmbs := [] } }

/-- `session.commit()`: move pending rows to committed. -/
def Session.commit (s : Session) : Session :=
  { s with st :=
    { committedChunks := s.st.committedChunks ++ s.st.pendingChunks
      committedEmbs := s.st.committedEmbs ++ s.st.pendingEmbs
      pendingChunks := []
      pendingEmbs := []
      nextId := s.st.nextId } }

/-- The chunk row inserted for one input chunk
(`INSERT INTO message_chunks ... RETURNING id`). -/
def chunkRowOf (mid dmid : Option Nat) (i : Nat) (ch : StoredInput) : ChunkRow :=
  { id := i, message_id := mid, dm_message_id := dmid,
    chunk_index := ch.chunk_index, chunk_content := ch.chunk_content,
    metadata := ch.metadata }

/-- The embedding row inserted for one input chunk
(`INSERT INTO message_embeddings`). -/
def embRowOf (i : Nat) (ch : StoredInput) : EmbRow :=
  { chunk_id := i, embedding := ch.embedding }

/-- The `for chunk in chunks` loop of `store_chunks`: per chunk, insert the
chunk row (may fail), insert the embedding row (may fail), commit (may
fail); on any failure roll back and re-raise, aborting the whole batch. -/
def storeLoop (fail : Nat → Bool) (mid dmid : Option Nat) :
    List StoredInput → Session → List Nat → Session × Except PyErr (List Nat)
  | [], s, acc => (s, Except.ok acc)
  | ch :: rest, s, acc =>
      if fail s.opIdx then
        (Session.rollback { s with opIdx := s.opIdx + 1 },
          Except.error (PyErr.dbError "execute"))
      else
        if fail (s.opIdx + 1) then
          (Session.rollback
            { st := { s.st with
                pendingChunks := s.st.pendingChunks ++ [chunkRowOf mid dmid s.st.nextId ch],
                nextId := s.st.nextId + 1 },
              opIdx := s.opIdx + 2 },
            Except.error (PyErr.dbError "execute"))
        else
          if fail (s.opIdx + 2) then
            (Session.rollback
              { st := { s.st with
                  pendingChunks := s.st.pendingChunks ++ [chunkRowOf mid dmid s.st.nextId ch],
                  pendingEmbs := s.st.pendingEmbs ++ [embRowOf s.st.nextId ch],
                  nextId := s.st.nextId + 1 },
                opIdx := s.opIdx + 3 },
              Except.error (PyErr.dbError "execute"))
          else
            storeLoop fail mid dmid rest
              (Session.commit
                { st := { s.st with
                    pendingChunks := s.st.pendingChunks ++ [chunkRowOf mid dmid s.st.nextId ch],
                    pendingEmbs := s.st.pendingEmbs ++ [embRowOf s.st.nextId ch],
                    nextId := s.st.nextId + 1 },
                  opIdx := s.opIdx + 3 })
              (acc ++ [s.st.nextId])

/-- `RAGStorage.store_chunks(chunks, message_id, dm_message_id)`; note the
absence of any validation of the two identifiers. -/
def store_chunks (fail : Nat → Bool) (chunks : List StoredInput)
    (mid dmid : Option Nat) (s : Session) : Session × Except PyErr (List Nat) :=
  storeLoop fail mid dmid chunks s []

/-- The ids `RETURNING id` yields for `n` consecutive inserts from `i`. -/
def idsFrom : Nat → Nat → List Nat
  | _, 0 => []
  | i, n + 1 => i :: idsFrom (i + 1) n

/-- The chunk rows a fully successful batch inserts. -/
def rowsFor (mid dmid : Option Nat) : Nat → List StoredInput → List ChunkRow
  | _, [] => []
  | i, ch :: rest => chunkRowOf mid dmid i ch :: rowsFor mid dmid (i + 1) rest

/-- The embedding rows a fully successful batch inserts. -/
def embsFor : Nat → List StoredInput → List EmbRow
  | _, [] => []
  | i, ch :: rest => embRowOf i ch :: embsFor (i + 1) rest

/-- Internal consistency: committed embeddings mirror committed chunks
one-to-one (no chunk without its embedding, in insertion order). -/
def Consistent (st : DBState) : Prop :=
  st.committedEmbs.map (fun e => e.chunk_id) =
    st.committedChunks.map (fun r => r.id)

/-- Every row of a batch insert carries exactly the identifiers passed to
`store_chunks`. -/
def rowsCarry (mid dmid : Option Nat) (rows : List ChunkRow) : Prop :=
  ∀ row ∈ rows, row.message_id = mid ∧ row.dm_message_id = dmid

/-- Per-pair atomicity: some prefix of `k` chunk+embedding pairs is
committed in full; the run succeeded with all ids iff `k` is the whole
batch, and failed with the pending pair rolled back iff `k` is a proper
prefix. -/
def PerChunkAtomic (fail : Nat → Bool) (chunks : List StoredInput)
    (mid dmid : Option Nat) (s : Session) : Prop :=
  ∃ k, k ≤ chunks.length ∧
    (store_chunks fail chunks mid dmid s).1.st.committedChunks =
      s.st.committedChunks ++ rowsFor mid dmid s.st.nextId (chunks.take k) ∧
    (store_chunks fail chunks mid dmid s).1.st.committedEmbs =
      s.st.committedEmbs ++ embsFor s.st.nextId (chunks.take k) ∧
    (((store_chunks fail chunks mid dmid s).2 =
        Except.ok (idsFrom s.st.nextId chunks.length) ∧ k = chunks.length) ∨
     ((store_chunks fail chunks mid dmid s).2 =
        Except.error (PyErr.dbError "execute") ∧ k < chunks.length))

lemma rowsFor_map_id (mid dmid : Option Nat) :
    ∀ (i : Nat) (l : List StoredInput),
      (embsFor i l).map (fun e => e.chunk_id) =
        (rowsFor mid dmid i l).map (fun r => r.id) := by
  intro i l
  induction l generalizing i with
  | nil => rfl
  | cons ch rest ih => simp [rowsFor, embsFor, chunkRowOf, embRowOf, ih]

lemma rowsFor_carry (mid dmid : Option Nat) :
    ∀ (i : Nat) (l : List StoredInput), rowsCarry mid dmid (rowsFor mid dmid i l) := by
  intro i l
  induction l generalizing i with
  | nil => intro row hrow; simp [rowsFor] at hrow
  | cons ch rest ih =>
      intro row hrow
      rcases List.mem_cons.mp hrow with h | h
      · subst h; exact ⟨rfl, rfl⟩
      · exact ih (i + 1) row h

lemma storeLoop_prefix (fail : Nat → Bool) (mid dmid : Option Nat) :
    ∀ (chunks : List StoredInput) (s : Session) (acc : List Nat),
      s.st.pendingChunks = [] → s.st.pendingEmbs = [] →
      ∃ k, k ≤ chunks.length ∧
        (storeLoop fail mid dmid chunks s acc).1.st.committedChunks =
          s.st.committedChunks ++ rowsFor mid dmid s.st.nextId (chunks.take k) ∧
        (storeLoop fail mid dmid chunks s acc).1.st.committedEmbs =
          s.st.committedEmbs ++ embsFor s.st.nextId (chunks.take k) ∧
        (((storeLoop fail mid dmid chunks s acc).2 =
            Except.ok (acc ++ idsFrom s.st.nextId chunks.length) ∧
            k = chunks.length) ∨
         ((storeLoop fail mid dmid chunks s acc).2 =
            Except.error (PyErr.dbError "execute") ∧ k < chunks.length)) := by
  intro chunks
  induction chunks with
  | nil =>
      intro s acc _ _
      exact ⟨0, Nat.le_refl _, by simp [storeLoop, rowsFor],
        by simp [storeLoop, embsFor], Or.inl ⟨by simp [storeLoop, idsFrom], rfl⟩⟩
  | cons ch rest ih =>
      intro s acc hpc hpe
      obtain ⟨⟨cc, ce, pc, pe, nid⟩, op⟩ := s
      have hpc' : pc = [] := hpc
      have hpe' : pe = [] := hpe
      subst hpc'
      subst hpe'
      by_cases hf0 : fail op
      · refine ⟨0, Nat.zero_le _, ?_, ?_, Or.inr ⟨?_, by simp⟩⟩ <;>
          simp [storeLoop, hf0, Session.rollback, rowsFor, embsFor]
      · by_cases hf1 : fail (op + 1)
        · refine ⟨0, Nat.zero_le _, ?_, ?_, Or.inr ⟨?_, by simp⟩⟩ <;>
            simp [storeLoop, hf0, hf1, Session.rollback, rowsFor, embsFor]
        · by_cases hf2 : fail (op + 2)
          · refine ⟨0, Nat.zero_le _, ?_, ?_, Or.inr ⟨?_, by simp⟩⟩ <;>
              simp [storeLoop, hf0, hf1, hf2, Session.rollback, rowsFor, embsFor]
          · have heq : storeLoop fail mid dmid (ch :: rest) ⟨⟨cc, ce, [], [], nid⟩, op⟩ acc =
                storeLoop fail mid dmid rest
                  ⟨⟨cc ++ [chunkRowOf mid dmid nid ch], ce ++ [embRowOf nid ch],
                    [], [], nid + 1⟩, op + 3⟩ (acc ++ [nid]) := by
              simp [storeLoop, hf0, hf1, hf2, Session.commit]
            obtain ⟨k', hk', hcc, hce, hres⟩ :=
              ih ⟨⟨cc ++ [chunkRowOf mid dmid nid ch], ce ++ [embRowOf nid ch],
                  [], [], nid + 1⟩, op + 3⟩ (acc ++ [nid]) rfl rfl
            refine ⟨k' + 1, by simpa using Nat.succ_le_succ hk', ?_, ?_, ?_⟩
            · rw [heq, hcc]
              simp [List.take_succ_cons, rowsFor]
            · rw [heq, hce]
              simp [List.take_succ_cons, embsFor]
            · rw [heq]
              rcases hres with ⟨hok, hk⟩ | ⟨herr, hk⟩
              · exact Or.inl ⟨by rw [hok]; simp [idsFrom], by simp [hk]⟩
              · exact Or.inr ⟨herr, by simpa using Nat.succ_lt_succ hk⟩

/-- C7: per-pair atomicity of `store_chunks`.  For every failure pattern,
some prefix of complete chunk+embedding pairs is committed (earlier
commits survive a mid-batch failure; the failing pair is rolled back as a
unit), the run succeeds iff the prefix is the whole batch, and internal
consistency (every committed chunk has exactly its committed embedding, in
order) is preserved. -/
theorem store_chunks_per_pair_atomic (fail : Nat → Bool)
    (chunks : List StoredInput) (mid dmid : Option Nat) (s : Session)
    (hpc : s.st.pendingChunks = []) (hpe : s.st.pendingEmbs = []) :
    PerChunkAtomic fail chunks mid dmid s ∧
    (Consistent s.st → Consistent (store_chunks fail chunks mid dmid s).1.st) := by
  obtain ⟨k, hk, hcc, hce, hres⟩ :=
    storeLoop_prefix fail mid dmid chunks s [] hpc hpe
  constructor
  · exact ⟨k, hk, hcc, hce, by simpa using hres⟩
  · intro hcons
    unfold Consistent at hcons ⊢
    show (store_chunks fail chunks mid dmid s).1.st.committedEmbs.map _ = _
    rw [show store_chunks fail chunks mid dmid s =
      storeLoop fail mid dmid chunks s [] from rfl, hcc, hce]
    simp [hcons, rowsFor_map_id mid dmid]

/-- Empty starting session for witnesses. -/
def sess0 : Session := ⟨⟨[], [], [], [], 0⟩, 0⟩

/-- Concrete chunk inputs for witnesses. -/
def inputW1 : StoredInput := ⟨0, "hello".toList, [], [1, 0]⟩

def inputW2 : StoredInput := ⟨1, "world".toList, [], [0, 1]⟩

/-- A failure oracle that fails the fifth operation — the second chunk's
embedding insert (operations 0,1,2 = first chunk, 3,4,5 = second). -/
def failAt4 : Nat → Bool := fun n => n == 4

/-- Witness for C7: with the second pair's embedding insert failing, the
first pair stays committed, the second is rolled back as a unit, and the
batch reports the error. -/
theorem store_chunks_per_pair_atomic_witness :
    PerChunkAtomic failAt4 [inputW1, inputW2] (some 5) none sess0 ∧
    (Consistent sess0.st →
      Consistent (store_chunks failAt4 [inputW1, inputW2] (some 5) none sess0).1.st) :=
  store_chunks_per_pair_atomic failAt4 [inputW1, inputW2] (some 5) none sess0 rfl rfl

/-- Counterexample to C6: `store_chunks` called with BOTH identifiers set,
or with NEITHER set, does not fail with `InvalidReferenceError` — it
proceeds, writes the rows and returns their ids. -/
theorem store_chunks_no_reference_check :
    (store_chunks (fun _ => false) [inputW1] (some 1) (some 2) sess0).2 =
      Except.ok [0] ∧
    (store_chunks (fun _ => false) [inputW1] none none sess0).2 =
      Except.ok [0] ∧
    (store_chunks (fun _ => false) [inputW1] (some 1) (some 2)
      sess0).1.st.committedChunks ≠ [] := by
  refine ⟨rfl, rfl, ?_⟩
  decide

lemma storeLoop_ok (mid dmid : Option Nat) :
    ∀ (chunks : List StoredInput) (s : Session) (acc : List Nat),
      s.st.pendingChunks = [] → s.st.pendingEmbs = [] →
      (storeLoop (fun _ => false) mid dmid chunks s acc).2 =
        Except.ok (acc ++ idsFrom s.st.nextId chunks.length) ∧
      (storeLoop (fun _ => false) mid dmid chunks s acc).1.st.committedChunks =
        s.st.committedChunks ++ rowsFor mid dmid s.st.nextId chunks := by
  intro chunks
  induction chunks with
  | nil =>
      intro s acc _ _
      exact ⟨by simp [storeLoop, idsFrom], by simp [storeLoop, rowsFor]⟩
  | cons ch rest ih =>
      intro s acc hpc hpe
      obtain ⟨⟨cc, ce, pc, pe, nid⟩, op⟩ := s
      have hpc' : pc = [] := hpc
      have hpe' : pe = [] := hpe
      subst hpc'
      subst hpe'
      have heq : storeLoop (fun _ => false) mid dmid (ch :: rest)
            ⟨⟨cc, ce, [], [], nid⟩, op⟩ acc =
          storeLoop (fun _ => false) mid dmid rest
            ⟨⟨cc ++ [chunkRowOf mid dmid nid ch], ce ++ [embRowOf nid ch],
              [], [], nid + 1⟩, op + 3⟩ (acc ++ [nid]) := by
        simp [storeLoop, Session.commit]
      obtain ⟨h1, h2⟩ :=
        ih ⟨⟨cc ++ [chunkRowOf mid dmid nid ch], ce ++ [embRowOf nid ch],
            [], [], nid + 1⟩, op + 3⟩ (acc ++ [nid]) rfl rfl
      constructor
      · rw [heq, h1]
        simp [idsFrom]
      · rw [heq, h2]
        simp [rowsFor]

/-- C6 (amended): `store_chunks` performs no exactly-one validation of
`message_id`/`dm_message_id`.  For EVERY combination of the two identifiers
(both set, neither set, or exactly one), a failure-free run succeeds,
returns the ids, writes rows that carry exactly the identifiers given, and
never fails with `InvalidReferenceError`. -/
theorem store_chunks_accepts_any_ids (chunks : List StoredInput)
    (mid dmid : Option Nat) (s : Session)
    (hpc : s.st.pendingChunks = []) (hpe : s.st.pendingEmbs = []) :
    (store_chunks (fun _ => false) chunks mid dmid s).2 =
      Except.ok (idsFrom s.st.nextId chunks.length) ∧
    (store_chunks (fun _ => false) chunks mid dmid s).1.st.committedChunks =
      s.st.committedChunks ++ rowsFor mid dmid s.st.nextId chunks ∧
    rowsCarry mid dmid (rowsFor mid dmid s.st.nextId chunks) ∧
    (store_chunks (fun _ => false) chunks mid dmid s).2 ≠
      Except.error PyErr.invalidReference := by
  obtain ⟨h1, h2⟩ := storeLoop_ok mid dmid chunks s [] hpc hpe
  refine ⟨by simpa using h1, by simpa using h2,
    rowsFor_carry mid dmid s.st.nextId chunks, ?_⟩
  intro h
  rw [show store_chunks (fun _ => false) chunks mid dmid s =
    storeLoop (fun _ => false) mid dmid chunks s [] from rfl] at h
  rw [h1] at h
  simp at h

/-- Witness for C6 (amended) with neither identifier set. -/
theorem store_chunks_accepts_any_ids_witness :
    (store_chunks (fun _ => false) [inputW1, inputW2] none none sess0).2 =
      Except.ok (idsFrom sess0.st.nextId [inputW1, inputW2].length) ∧
    (store_chunks (fun _ => false) [inputW1, inputW2] none none
        sess0).1.st.committedChunks =
      sess0.st.committedChunks ++ rowsFor none none sess0.st.nextId [inputW1, inputW2] ∧
    rowsCarry none none (rowsFor none none sess0.st.nextId [inputW1, inputW2]) ∧
    (store_chunks (fun _ => false) [inputW1, inputW2] none none sess0).2 ≠
      Except.error PyErr.invalidReference :=
  store_chunks_accepts_any_ids [inputW1, inputW2] none none sess0 rfl rfl

/-! ## LLM processor, streaming — `backend/app/rag/llm.py`

`generate_stream_response` wraps the whole provider iteration in one
`try`/`except`: each received delta with truthy content is yielded as a
`data: {"content": ...}` SSE event; an exception anywhere yields one
`data: {"error": ...}` event; on normal completion the generator simply
ends — there is NO completion marker in the code.  The provider stream is
embedded as the list of deltas it produces plus its terminal outcome
(`none` = completes normally, `some e` = raises `e` after the deltas).
Events are represented by constructor (`content`/`error`); the spec's
expected explicit completion marker is the constructor `done`, which the
code never emits. -/

/-- A provider-side stream: the content deltas received, then either
normal completion (`none`) or a mid-stream exception (`some message`). -/
structure ProviderStream where
  deltas : List Str
  outcome : Option Str
  deriving Repr, DecidableEq

/-- One server-sent event of the streaming response. -/
inductive StreamEvent where
  | content (s : Str)
  | error (e : Str)
  | done
  deriving Repr, DecidableEq

/-- `LLMProcessor.generate_stream_response`: the `async for` loop yielding
each truthy delta as a content event, with the surrounding `except` turning
a provider exception into a single error event; nothing is emitted after
normal completion. -/
def generate_stream_response : List Str → Option Str → List StreamEvent
  | [], none => []
  | [], some e => [StreamEvent.error e]
  | d :: rest, out =>
      if d = [] then generate_stream_response rest out
      else StreamEvent.content d :: generate_stream_response rest out

/-- The event sequence of one provider stream. -/
def streamEventsOf (p : ProviderStream) : List StreamEvent :=
  generate_stream_response p.deltas p.outcome

/-- Counterexample to C8: a provider stream that completes normally after
two content deltas produces exactly the two content events and then simply
ends — no explicit completion marker distinguishable from content events is
ever emitted (the last event is itself a content event). -/
theorem generate_stream_no_completion_marker :
    streamEventsOf ⟨["hi".toList, "there".toList], none⟩ =
      [StreamEvent.content "hi".toList, StreamEvent.content "there".toList] ∧
    StreamEvent.done ∉ streamEventsOf ⟨["hi".toList, "there".toList], none⟩ := by
  constructor
  · rfl
  · decide

/-- C8 (amended): the event sequence is the truthy deltas as content
events, followed by exactly one error event when the provider raised
mid-stream and by nothing at all when it completed normally; in particular
a failure after two non-empty deltas yields two content events then one
error event (no silent truncation), while normal completion produces no
explicit completion marker (`done` is never emitted). -/
theorem generate_stream_events (p : ProviderStream) :
    streamEventsOf p =
      (p.deltas.filter (fun d => ¬ d = [])).map StreamEvent.content ++
        (match p.outcome with
         | none => []
         | some e => [StreamEvent.error e]) ∧
    StreamEvent.done ∉ streamEventsOf p := by
  obtain ⟨deltas, outcome⟩ := p
  have key : ∀ (l : List Str) (out : Option Str),
      generate_stream_response l out =
        (l.filter (fun d => ¬ d = [])).map StreamEvent.content ++
          (match out with
           | none => []
           | some e => [StreamEvent.error e]) := by
    intro l
    induction l with
    | nil => intro out; cases out <;> rfl
    | cons d rest ih =>
        intro out
        by_cases hd : d = []
        · simp [generate_stream_response, hd, ih out]
        · simp [generate_stream_response, hd, ih out]

  constructor
  · exact key deltas outcome
  · show StreamEvent.done ∉ generate_stream_response deltas outcome
    rw [key deltas outcome]
    intro hmem
    rcases List.mem_append.mp hmem with h | h
    · obtain ⟨d, -, hd⟩ := List.mem_map.mp h
      exact StreamEvent.noConfusion hd
    · cases outcome with
      | none => simp at h
      | some e =>
          simp only [List.mem_singleton] at h
          exact StreamEvent.noConfusion h

/-! ## Query orchestrator — `backend/app/rag/query.py`

`RAGQueryProcessor.process_query` chains: query embedding → similarity
search → `assemble_context` → LLM generation → latency → analytics write →
result dictionary.  The effectful collaborators are embedded as `Except`
returning functions in `QueryDeps`; the two wall-clock readings are
`start_ms`/`end_ms`.

Two Python-surface facts of the shipped code are modelled explicitly:
1. both LLM calls pass the keyword `custom_system_prompt`, but
   `generate_rag_response`/`generate_stream_response` accept only
   `(query, context, username)`, so keyword binding raises `TypeError`
   before the callee runs (`kwargsBind` embeds CPython keyword binding);
2. `self.storage.store_query(...)` looks up an attribute `RAGStorage`
   never defines (its methods are `store_chunks`, `search_similar`,
   `get_message_context`), raising `AttributeError`.
There is no `try`/`except` anywhere in `process_query`, so every such
exception propagates to the caller. -/

/-- The methods `RAGStorage` actually defines (`storage.py`). -/
def ragStorageMethods : List String := ["store_chunks", "search_similar", "get_message_context"]

/-- The keywords `process_query` passes to both LLM generation calls. -/
def generateCallKwargs : List String := ["query", "context", "custom_system_prompt"]

/-- The parameters `LLMProcessor.generate_rag_response` accepts. -/
def generateRagParams : List String := ["query", "context", "username"]

/-- The parameters `LLMProcessor.generate_stream_response` accepts. -/
def generateStreamParams : List String := ["query", "context", "username"]

/-- CPython keyword binding: every passed keyword must name a parameter,
else the call raises `TypeError`. -/
def kwargsBind (passed params : List String) : Bool :=
  passed.all (fun k => params.contains k)

/-- The dictionary `generate_rag_response` returns (content, model, usage). -/
structure LLMResponse where
  content : Str
  model : String
  prompt_tokens : Nat
  completion_tokens : Nat
  total_tokens : Nat
  deriving Repr, DecidableEq

/-- `response_data`: either the complete response dict (tagged
`"complete"`) or the stream (tagged `"stream"`). -/
inductive ResponseData where
  | complete (r : LLMResponse)
  | stream (events : List StreamEvent)
  deriving Repr, DecidableEq

/-- The dictionary `process_query` returns. -/
structure QueryResult where
  query_text : Str
  retrieved_chunks : List ChunkDict
  formatted_context : Str
  context_token_count : Nat
  chunks_used : Nat
  total_chunks : Nat
  response : ResponseData
  processing_time_ms : Nat
  deriving Repr, DecidableEq

/-- Effectful collaborators of `process_query`, plus the two clock
readings.  `store_query` is *modelled from the spec* (§4.3 analytics
contract: an append-only write returning the log-entry id, which may
fail) — `RAGStorage` never defines it; only this orchestrator and the
tests mention it. -/
structure QueryDeps where
  generate_embeddings : Str → Except PyErr (List ℚ)
  search_similar : List ℚ → ℚ → Nat → Except PyErr (List ChunkDict)
  generate_rag_response : Str → Str → Except PyErr LLMResponse
  generate_stream : Str → Str → List StreamEvent
  store_query : Nat → Str → List ChunkDict → Nat → Except PyErr Nat
  start_ms : Nat
  end_ms : Nat

/-- `RAGQueryProcessor.__init__` configuration. -/
structure RAGQueryProcessor where
  default_top_k : Nat
  default_similarity_threshold : ℚ
  context_assembler : ContextAssembler

/-- Python `x or default` on an optional int (`None` and `0` are falsy). -/
def pyOrNat : Option Nat → Nat → Nat
  | none, d => d
  | some v, d => if v = 0 then d else v

/-- Python `x or default` on an optional float (`None` and `0.0` falsy). -/
def pyOrRat : Option ℚ → ℚ → ℚ
  | none, d => d
  | some v, d => if v = 0 then d else v

/-- The tail of `process_query` from the analytics write on: attribute
lookup of `store_query` on `RAGStorage` (which does not define it), then
the un-guarded call, then the result dictionary. -/
def queryTail (deps : QueryDeps) (q : Str) (uid : Nat)
    (chs : List ChunkDict) (context_data : AssembledContext)
    (response_data : ResponseData) : Except PyErr QueryResult :=
  if ragStorageMethods.contains "store_query" then
    match deps.store_query uid q chs (deps.end_ms - deps.start_ms) with
    | Except.error e => Except.error e
    | Except.ok _ =>
        Except.ok
          { query_text := q
            retrieved_chunks := chs
            formatted_context := context_data.formatted_context
            context_token_count := context_data.token_count
            chunks_used := context_data.chunks_used
            total_chunks := context_data.total_chunks
            response := response_data
            processing_time_ms := deps.end_ms - deps.start_ms }
  else
    Except.error (PyErr.attributeError "store_query")

/-- `RAGQueryProcessor.process_query` as shipped: embedding → search →
context → generation (with CPython keyword binding of the shipped call) →
analytics (with attribute lookup) → result; no exception is caught
anywhere. -/
def process_query (proc : RAGQueryProcessor) (deps : QueryDeps)
    (query_text : Str) (user_id : Nat) (top_k : Option Nat)
    (similarity_threshold : Option ℚ) (include_metadata : Bool)
    (stream_response : Bool) : Except PyErr QueryResult :=
  match deps.generate_embeddings query_text with
  | Except.error e => Except.error e
  | Except.ok query_embedding =>
    match deps.search_similar query_embedding
        (pyOrRat similarity_threshold proc.default_similarity_threshold)
        (pyOrNat top_k proc.default_top_k) with
    | Except.error e => Except.error e
    | Except.ok similar_chunks =>
      if stream_response then
        if kwargsBind generateCallKwargs generateStreamParams then
          queryTail deps query_text user_id similar_chunks
            (assemble_context proc.context_assembler query_text similar_chunks include_metadata)
            (ResponseData.stream (deps.generate_stream query_text
              (assemble_context proc.context_assembler query_text similar_chunks
                include_metadata).formatted_context))
        else
          Except.error (PyErr.typeError "custom_system_prompt")
      else
        if kwargsBind generateCallKwargs generateRagParams then
          match deps.generate_rag_response query_text
              (assemble_context proc.context_assembler query_text similar_chunks
                include_metadata).formatted_context with
          | Except.error e => Except.error e
          | Except.ok r =>
              queryTail deps query_text user_id similar_chunks
                (assemble_context proc.context_assembler query_text similar_chunks
                  include_metadata)
                (ResponseData.complete r)
        else
          Except.error (PyErr.typeError "custom_system_prompt")

/-- Modelled from the spec: the analytics tail as §4.3/§4.6 intend it —
`store_query` exists (it is absent from the repository; only its callers
and mocks appear) and is called without any exception handler, exactly as
the shipped call site is written. -/
def queryTailSpec (deps : QueryDeps) (q : Str) (uid : Nat)
    (chs : List ChunkDict) (context_data : AssembledContext)
    (response_data : ResponseData) : Except PyErr QueryResult :=
  match deps.store_query uid q chs (deps.end_ms - deps.start_ms) with
  | Except.error e => Except.error e
  | Except.ok _ =>
      Except.ok
        { query_text := q
          retrieved_chunks := chs
          formatted_context := context_data.formatted_context
          context_token_count := context_data.token_count
          chunks_used := context_data.chunks_used
          total_chunks := context_data.total_chunks
          response := response_data
          processing_time_ms := deps.end_ms - deps.start_ms }

/-- Modelled from the spec: `process_query` with the two broken
collaborator links repaired as the spec intends (the LLM call binds, and
`RAGStorage.store_query` exists, modelled from §4.3); every line that does
exist in `query.py` — the stage order, the dataflow, and the absence of
any `try`/`except` — is kept exactly as shipped. -/
def process_query_spec (proc : RAGQueryProcessor) (deps : QueryDeps)
    (query_text : Str) (user_id : Nat) (top_k : Option Nat)
    (similarity_threshold : Option ℚ) (include_metadata : Bool)
    (stream_response : Bool) : Except PyErr QueryResult :=
  match deps.generate_embeddings query_text with
  | Except.error e => Except.error e
  | Except.ok query_embedding =>
    match deps.search_similar query_embedding
        (pyOrRat similarity_threshold proc.default_similarity_threshold)
        (pyOrNat top_k proc.default_top_k) with
    | Except.error e => Except.error e
    | Except.ok similar_chunks =>
      if stream_response then
        queryTailSpec deps query_text user_id similar_chunks
          (assemble_context proc.context_assembler query_text similar_chunks include_metadata)
          (ResponseData.stream (deps.generate_stream query_text
            (assemble_context proc.context_assembler query_text similar_chunks
              include_metadata).formatted_context))
      else
        match deps.generate_rag_response query_text
            (assemble_context proc.context_assembler query_text similar_chunks
              include_metadata).formatted_context with
        | Except.error e => Except.error e
        | Except.ok r =>
            queryTailSpec deps query_text user_id similar_chunks
              (assemble_context proc.context_assembler query_text similar_chunks
                include_metadata)
              (ResponseData.complete r)

/-- The spec-modelled non-streaming success path: when generation and the
analytics write succeed, `process_query` returns the claimed result
object (original query, retrieved chunks with similarities, assembled
context, complete response, measured latency). -/
def specCompletesAt (proc : RAGQueryProcessor) (deps : QueryDeps) (q : Str)
    (uid : Nat) (topk : Option Nat) (thr : Option ℚ) (im : Bool)
    (chs : List ChunkDict) : Prop :=
  ∀ resp qid,
    deps.generate_rag_response q
      (assemble_context proc.context_assembler q chs im).formatted_context =
        Except.ok resp →
    deps.store_query uid q chs (deps.end_ms - deps.start_ms) = Except.ok qid →
    process_query_spec proc deps q uid topk thr im false =
      Except.ok
        { query_text := q
          retrieved_chunks := chs
          formatted_context :=
            (assemble_context proc.context_assembler q chs im).formatted_context
          context_token_count :=
            (assemble_context proc.context_assembler q chs im).token_count
          chunks_used := (assemble_context proc.context_assembler q chs im).chunks_used
          total_chunks := (assemble_context proc.context_assembler q chs im).total_chunks
          response := ResponseData.complete resp
          processing_time_ms := deps.end_ms - deps.start_ms }

/-- The spec-modelled streaming success path: the result carries the
stream handle (not-yet-consumed events) instead of a complete response. -/
def specStreamsAt (proc : RAGQueryProcessor) (deps : QueryDeps) (q : Str)
    (uid : Nat) (topk : Option Nat) (thr : Option ℚ) (im : Bool)
    (chs : List ChunkDict) : Prop :=
  ∀ qid,
    deps.store_query uid q chs (deps.end_ms - deps.start_ms) = Except.ok qid →
    process_query_spec proc deps q uid topk thr im true =
      Except.ok
        { query_text := q
          retrieved_chunks := chs
          formatted_context :=
            (assemble_context proc.context_assembler q chs im).formatted_context
          context_token_count :=
            (assemble_context proc.context_assembler q chs im).token_count
          chunks_used := (assemble_context proc.context_assembler q chs im).chunks_used
          total_chunks := (assemble_context proc.context_assembler q chs im).total_chunks
          response := ResponseData.stream (deps.generate_stream q
            (assemble_context proc.context_assembler q chs im).formatted_context)
          processing_time_ms := deps.end_ms - deps.start_ms }

/-- C3: the shipped `process_query` NEVER returns the claimed result
object: as soon as embedding and search succeed, the LLM call's keyword
binding raises `TypeError: unexpected keyword argument
'custom_system_prompt'` on both the streaming and non-streaming branch
(and even past that, `RAGStorage` has no `store_query`).  The claimed
contract does hold of the spec-modelled orchestrator: with all
collaborators succeeding, it returns the result object with exactly the
claimed fields, both non-streaming and streaming. -/
theorem process_query_contract (proc : RAGQueryProcessor) (deps : QueryDeps)
    (q : Str) (uid : Nat) (topk : Option Nat) (thr : Option ℚ)
    (im stream : Bool) (emb : List ℚ) (chs : List ChunkDict)
    (hemb : deps.generate_embeddings q = Except.ok emb)
    (hch : deps.search_similar emb (pyOrRat thr proc.default_similarity_threshold)
      (pyOrNat topk proc.default_top_k) = Except.ok chs) :
    process_query proc deps q uid topk thr im stream =
      Except.error (PyErr.typeError "custom_system_prompt") ∧
    specCompletesAt proc deps q uid topk thr im chs ∧
    specStreamsAt proc deps q uid topk thr im chs := by
  refine ⟨?_, ?_, ?_⟩
  · have hb1 : kwargsBind generateCallKwargs generateStreamParams = false := by decide
    have hb2 : kwargsBind generateCallKwargs generateRagParams = false := by decide
    cases stream <;> simp [process_query, hemb, hch, hb1, hb2]
  · intro resp qid hgen hstore
    simp [process_query_spec, hemb, hch, hgen, queryTailSpec, hstore]
  · intro qid hstore
    simp [process_query_spec, hemb, hch, queryTailSpec, hstore]

/-- Concrete LLM response for witnesses. -/
def llmRespW : LLMResponse := ⟨"ok".toList, "gpt-3.5-turbo", 10, 5, 15⟩

/-- All-succeeding collaborators for witnesses. -/
def depsW : QueryDeps :=
  { generate_embeddings := fun _ => Except.ok [1, 0]
    search_similar := fun _ _ _ => Except.ok chunksW
    generate_rag_response := fun _ _ => Except.ok llmRespW
    generate_stream := fun _ _ => []
    store_query := fun _ _ _ _ => Except.ok 42
    start_ms := 100
    end_ms := 250 }

/-- Collaborators whose analytics write fails (everything else succeeds). -/
def depsWFail : QueryDeps :=
  { depsW with store_query := fun _ _ _ _ => Except.error (PyErr.dbError "store_query") }

/-- Concrete orchestrator configuration for witnesses. -/
def procW : RAGQueryProcessor := ⟨5, 7 / 10, asmW⟩

/-- Witness for C3 at concrete collaborators and query. -/
theorem process_query_contract_witness :
    process_query procW depsW "hi".toList 1 none none true false =
      Except.error (PyErr.typeError "custom_system_prompt") ∧
    specCompletesAt procW depsW "hi".toList 1 none none true chunksW ∧
    specStreamsAt procW depsW "hi".toList 1 none none true chunksW :=
  process_query_contract procW depsW "hi".toList 1 none none true false
    [1, 0] chunksW rfl rfl

/-- C4: the analytics write is NOT best-effort in the code.  In the
spec-modelled orchestrator (whose analytics call site is verbatim the
shipped one — no `try`/`except`), when generation has succeeded and the
analytics write fails with `e`, `process_query` returns `error e` to the
caller instead of the successful response. -/
theorem process_query_propagates_analytics_failure (proc : RAGQueryProcessor)
    (deps : QueryDeps) (q : Str) (uid : Nat) (topk : Option Nat)
    (thr : Option ℚ) (im : Bool) (emb : List ℚ) (chs : List ChunkDict)
    (resp : LLMResponse) (e : PyErr)
    (hemb : deps.generate_embeddings q = Except.ok emb)
    (hch : deps.search_similar emb (pyOrRat thr proc.default_similarity_threshold)
      (pyOrNat topk proc.default_top_k) = Except.ok chs)
    (hgen : deps.generate_rag_response q
      (assemble_context proc.context_assembler q chs im).formatted_context =
        Except.ok resp)
    (hstore : deps.store_query uid q chs (deps.end_ms - deps.start_ms) =
      Except.error e) :
    process_query_spec proc deps q uid topk thr im false = Except.error e := by
  simp [process_query_spec, hemb, hch, hgen, queryTailSpec, hstore]

/-- Witness for C4: with the concrete failing analytics write, the request
fails with that very error despite a successful generation. -/
theorem process_query_propagates_analytics_failure_witness :
    process_query_spec procW depsWFail "hi".toList 1 none none true false =
      Except.error (PyErr.dbError "store_query") :=
  process_query_propagates_analytics_failure procW depsWFail "hi".toList 1
    none none true [1, 0] chunksW llmRespW (PyErr.dbError "store_query")
    rfl rfl rfl rfl

end RAG
